import Mathlib

/-!
# Verification of the btc-service price acquisition core

A shallow embedding, in Lean 4, of the price acquisition and caching
subsystem of the `btc-service` Go repository:

* `services/price.go` — pair resolution (`resolveCurrencies`, `splitPairs`,
  `extractCurrency`, `trimSpaces`) and batch aggregation (`GetPrices`);
* `handlers/ltp.go` — the HTTP status classification of a batch result;
* the Kraken client file — cache freshness (`isCacheFresh`), the cached
  lookup (`GetBTCPrice`), and upstream response classification
  (`fetchFromKraken`).

Modelling conventions:

* Go strings are modelled as `List Char` (all inputs of interest are ASCII,
  so byte indexing and rune iteration coincide).
* `float64` prices are modelled as `Rat`; no arithmetic is ever performed on
  a price by this code (prices are only parsed, stored, compared and
  returned), so the model is exact.
* Timestamps are modelled as `Int` seconds; the Go code works in
  `time.Duration` nanoseconds with a 60-second window, and only the ordering
  `now - observedAt < 60s` matters.
* Effectful calls (`clients.GetBTCPrice`, the Redis backend, the Kraken
  HTTP fetch) are modelled as explicit oracle parameters: the batch loop
  takes a `fetch` function of the call index and currency; the cached lookup
  takes the backend read behaviour, the current time and the outcome of the
  (at most one) upstream fetch it may perform.
-/

set_option autoImplicit false

namespace BtcService

/-- Convert a Lean string literal to the `List Char` representation used for
Go strings throughout this development. -/
def str (s : String) : List Char := s.toList

/-- Go `float64` prices; modelled exactly as rationals since the code never
does arithmetic on them. -/
abbrev Price := Rat

/-! ## PairResolver (`services/price.go`) -/

/-- Function `trimSpaces` from `services/price.go`: advance `start` past leading `' '`
bytes and retreat `end` past trailing `' '` bytes, i.e. drop leading and
trailing space characters (only U+0020, nothing else). -/
def trimSpaces (s : List Char) : List Char :=
  ((s.dropWhile (fun c => c = ' ')).reverse.dropWhile (fun c => c = ' ')).reverse

/-- The first loop of `splitPairs`: scan the characters accumulating
`current`; on `','` emit `current` (possibly empty) and reset; at the end
emit the final `current` only if it is non-empty. -/
def splitRaw : List Char → List Char → List (List Char)
  | [], current => if current = [] then [] else [current]
  | c :: rest, current =>
    if c = ',' then current :: splitRaw rest []
    else splitRaw rest (current ++ [c])

/-- Function `splitPairs` from `services/price.go`: split the raw parameter on commas,
then keep the trimmed chunks that are non-empty. -/
def splitPairs (pairsParam : List Char) : List (List Char) :=
  (splitRaw pairsParam []).filterMap fun pair =>
    let trimmed := trimSpaces pair
    if trimmed = [] then none else some trimmed

/-- Function `extractCurrency` from `services/price.go`: scan for the first `'/'`
that is not the last character and return everything after it; otherwise
return the empty string. -/
def extractCurrency : List Char → List Char
  | [] => []
  | c :: rest => if c = '/' ∧ rest ≠ [] then rest else extractCurrency rest

/-- Function `resolveCurrencies` from `services/price.go`: an empty parameter resolves
to the fixed default list `[USD, EUR, CHF]`; otherwise split into pair
tokens and keep each non-empty extracted currency. -/
def resolveCurrencies (pairsParam : List Char) : List (List Char) :=
  if pairsParam = [] then [str "USD", str "EUR", str "CHF"]
  else
    (splitPairs pairsParam).filterMap fun pair =>
      let currency := extractCurrency pair
      if currency = [] then none else some currency

example : resolveCurrencies (str "") = [str "USD", str "EUR", str "CHF"] := by decide
example : resolveCurrencies (str "BTC/USD, BTC/EUR") = [str "USD", str "EUR"] := by decide
example : resolveCurrencies (str "INVALID") = [] := by decide
example : extractCurrency (str "BTC/US/D") = str "US/D" := by decide

/-! ## QuoteSource errors (Kraken client file) -/

/-- Render a Go `[]string` the way `fmt`'s `%v` verb does:
`[elem1 elem2 ...]`. Used for the `kraken API error: %v` message. -/
def goFormatStrSlice (xs : List (List Char)) : List Char :=
  str "[" ++ (List.intercalate (str " ") xs) ++ str "]"

/-- The four error kinds a single-pair fetch can produce (spec §4.2),
as they arise in the Kraken client file:

* `transportError` — `http.Get` or body read failed
  (`failed to make request` / `failed to read response`);
* `protocolError` — the body or the price string could not be parsed
  (`failed to parse response` / `failed to parse price`);
* `upstreamRejected` — the provider payload carries a non-empty error list
  (`kraken API error: %v`);
* `noData` — a well-formed response with no usable result entry
  (`no price data found`). -/
inductive FetchError where
  | transportError (msg : List Char)
  | protocolError (msg : List Char)
  | upstreamRejected (errs : List (List Char))
  | noData
  deriving DecidableEq

/-- The Go error string carried by a `FetchError`, as produced by the
`fmt.Errorf` calls in the Kraken client file. -/
def FetchError.message : FetchError → List Char
  | .transportError msg => msg
  | .protocolError msg => msg
  | .upstreamRejected errs => str "kraken API error: " ++ goFormatStrSlice errs
  | .noData => str "no price data found"

/-! ## BatchCoordinator (`GetPrices` in `services/price.go`)

`GetPrices` calls the effectful `clients.GetBTCPrice` once per resolved
currency, in list order.  We model that call as an oracle
`fetch : Nat → List Char → Except FetchError Price` giving the outcome of
the `i`-th call (the index makes the oracle as general as the stateful Go
function: two calls for the same currency may differ). -/

/-- One entry of the success list: `PairPrice{Pair, Amount}`. -/
structure PairPrice where
  pair : List Char
  amount : Price
  deriving DecidableEq

/-- Structure `PriceResult` from `services/price.go`. `krakenCalls` is set to
`len(currencies)` by the code. -/
structure PriceResult where
  prices : List PairPrice
  errorsCount : Nat
  krakenCalls : Nat
  errorMessage : List Char
  deriving DecidableEq

/-- The success-list label `fmt.Sprintf("BTC/%s", currency)`. -/
def formatPair (currency : List Char) : List Char :=
  str "BTC/" ++ currency

/-- The retained error string `fmt.Sprintf("BTC/%s: %v", currency, err)`. -/
def formatFetchError (currency : List Char) (e : FetchError) : List Char :=
  formatPair currency ++ str ": " ++ e.message

/-- The `for _, currency := range currencies` loop of `GetPrices`: on error,
bump `errorsCount`, overwrite `lastError` and continue; on success, append
the `PairPrice` entry. `i` is the index of the next oracle call. -/
def getPricesLoop (fetch : Nat → List Char → Except FetchError Price) :
    Nat → List (List Char) → List PairPrice → Nat → List Char →
    List PairPrice × Nat × List Char
  | _, [], prices, errorsCount, lastError => (prices, errorsCount, lastError)
  | i, currency :: rest, prices, errorsCount, lastError =>
    match fetch i currency with
    | .error e =>
      getPricesLoop fetch (i + 1) rest prices (errorsCount + 1)
        (formatFetchError currency e)
    | .ok price =>
      getPricesLoop fetch (i + 1) rest
        (prices ++ [⟨formatPair currency, price⟩]) errorsCount lastError

/-- The body of `GetPrices` after currency resolution, run on an already
resolved currency list. -/
def runBatch (fetch : Nat → List Char → Except FetchError Price)
    (currencies : List (List Char)) : PriceResult :=
  let out := getPricesLoop fetch 0 currencies [] 0 []
  ⟨out.1, out.2.1, currencies.length, out.2.2⟩

/-- Function `GetPrices` from `services/price.go`: resolve the currencies, run the
fetch loop, and return the aggregate with `KrakenCalls = len(currencies)`. -/
def GetPrices (fetch : Nat → List Char → Except FetchError Price)
    (pairsParam : List Char) : PriceResult :=
  runBatch fetch (resolveCurrencies pairsParam)

/-! ## HTTP classification (`handlers/ltp.go`, lines 57–76) -/

/-- The status code logic of `LTPHandler`: start from 200; when an error
occurred and no price was returned, 503; a partial failure stays 200. -/
def ltpStatusCode (result : PriceResult) : Nat :=
  if result.errorsCount > 0 ∧ result.prices.length = 0 then 503
  else 200

/-- Derived overall batch status (spec §4.4). -/
inductive BatchStatus where
  | allFailed
  | mixedSuccess
  | fullSuccess
  deriving DecidableEq

/-- Modelled from the spec: the derived batch classification of §4.4 is not
computed as a field anywhere in the code, so it is transcribed from the
spec's words: `AllFailed` when `errorCount == N and N > 0`, `PartialSuccess`
(here `mixedSuccess`) when `0 < errorCount < N`, `FullSuccess` when
`errorCount == 0`, and an empty resolved list behaves like `AllFailed` with
`N = 0`. -/
def batchStatus (errorCount totalAttempts : Nat) : BatchStatus :=
  if totalAttempts = 0 then .allFailed
  else if errorCount = totalAttempts then .allFailed
  else if errorCount = 0 then .fullSuccess
  else .mixedSuccess

/-! ## PriceCache and cached lookup (Kraken client file) -/

/-- The record `CachedPrice{Price, Timestamp}` as stored in Redis; timestamps are
`Int` seconds. -/
structure CachedPrice where
  price : Price
  timestamp : Int
  deriving DecidableEq

/-- What the backend read (`getFromCache`) can yield for a key:

* `hit` — `redisClient.Get` succeeded and the value unmarshalled;
* `nilMiss` — `redis.Nil`, the key is absent;
* `errOther` — any other backend error (unreachable backend, corrupt
  value); the caller only logs it and treats it as a miss. -/
inductive CacheGet where
  | hit (cached : CachedPrice)
  | nilMiss
  | errOther
  deriving DecidableEq

/-- Function `isCacheFresh` from the Kraken client file:
`time.Since(cached.Timestamp) < 60*time.Second`, in seconds. -/
def isCacheFresh (now : Int) (cached : CachedPrice) : Bool :=
  now - cached.timestamp < 60

/-- The cache key `fmt.Sprintf("price:%s", fmt.Sprintf("BTC/%s", currency))`. -/
def cacheKeyOf (currency : List Char) : List Char :=
  str "price:" ++ formatPair currency

deriving instance DecidableEq for Except

/-- The observable outcome of one `GetBTCPrice` call: the returned
`(float64, error)` pair, whether `fetchFromKraken` was invoked, and the
`saveToCache` write performed (if any). -/
structure LookupResult where
  result : Except FetchError Price
  krakenCalled : Bool
  cacheWrite : Option (List Char × CachedPrice)
  deriving DecidableEq

/-- Function `GetBTCPrice` from the Kraken client file. `redisAvailable` models
`redisClient != nil`; `cacheGet` is the backend read behaviour for each key;
`kraken` is the outcome `fetchFromKraken(currency)` would produce on this
call. The cache path is taken only when the client is initialized, the read
yields a value (`err == nil`) and the value is fresh; every other case
falls through to the upstream fetch, after which a successful price is
written back (best effort) when the client is initialized. -/
def GetBTCPrice (redisAvailable : Bool) (cacheGet : List Char → CacheGet)
    (now : Int) (kraken : Except FetchError Price)
    (currency : List Char) : LookupResult :=
  let cacheKey := cacheKeyOf currency
  let freshHit : Option Price :=
    if redisAvailable then
      match cacheGet cacheKey with
      | .hit cached => if isCacheFresh now cached then some cached.price else none
      | .nilMiss => none
      | .errOther => none
    else none
  match freshHit with
  | some price => ⟨.ok price, false, none⟩
  | none =>
    match kraken with
    | .error e => ⟨.error e, true, none⟩
    | .ok price =>
      ⟨.ok price, true,
        if redisAvailable then some (cacheKey, ⟨price, now⟩) else none⟩

/-- Backend read behaviour induced by an association-list store: a stored
value is returned as a `hit`, an absent key as `redis.Nil`. -/
def storeGet (store : List (List Char × CachedPrice)) (key : List Char) :
    CacheGet :=
  match store.lookup key with
  | some cached => .hit cached
  | none => .nilMiss

/-! ## Upstream response classification (`fetchFromKraken`) -/

/-- Structure `KrakenPair`: the `c` field, `[price, lot volume, ...]` as strings. -/
structure KrakenPair where
  c : List (List Char)
  deriving DecidableEq

/-- A decoded Kraken ticker document: the `error` list and the `result`
map. Go's `map[string]KrakenPair` is modelled as an association list in the
order the `for ... range` loop visits the entries. -/
structure KrakenResponse where
  error : List (List Char)
  result : List (List Char × KrakenPair)
  deriving DecidableEq

/-- The `for _, pairData := range krakenResp.Result` loop of
`fetchFromKraken`: take the first entry whose `c` array is non-empty, parse
its head (`fmt.Sscanf(pairData.C[0], "%f", &price)` is modelled by the
`parse` oracle); a parse failure is `failed to parse price` and no usable
entry is `no price data found`. -/
def krakenResultScan (parse : List Char → Option Price) :
    List (List Char × KrakenPair) → Except FetchError Price
  | [] => .error .noData
  | (_, pairData) :: rest =>
    match pairData.c with
    | [] => krakenResultScan parse rest
    | c0 :: _ =>
      match parse c0 with
      | some price => .ok price
      | none => .error (.protocolError (str "failed to parse price: " ++ c0))

/-- Function `fetchFromKraken` from the Kraken client file, applied to an already
transported and JSON-decoded response (transport and body-decode failures
happen before this point and yield `transportError` / `protocolError`
directly): a non-empty `error` list is rejected upstream, otherwise the
result entries are scanned for the first price. -/
def fetchFromKraken (parse : List Char → Option Price)
    (resp : KrakenResponse) : Except FetchError Price :=
  if resp.error ≠ [] then .error (.upstreamRejected resp.error)
  else krakenResultScan parse resp.result

/-! ## Reference descriptions of the batch loop

Independent, cons-directed descriptions of what the accumulator loop in
`GetPrices` produces, used to state the aggregation claims. -/

/-- The ordered success entries of a batch: one `PairPrice` per currency
whose fetch (at its call index) succeeds, in currency-list order. -/
def successesFrom (fetch : Nat → List Char → Except FetchError Price) :
    Nat → List (List Char) → List PairPrice
  | _, [] => []
  | i, currency :: rest =>
    match fetch i currency with
    | .ok price => ⟨formatPair currency, price⟩ :: successesFrom fetch (i + 1) rest
    | .error _ => successesFrom fetch (i + 1) rest

/-- The number of failed fetches of a batch. -/
def errorsFrom (fetch : Nat → List Char → Except FetchError Price) :
    Nat → List (List Char) → Nat
  | _, [] => 0
  | i, currency :: rest =>
    match fetch i currency with
    | .ok _ => errorsFrom fetch (i + 1) rest
    | .error _ => errorsFrom fetch (i + 1) rest + 1

/-- The formatted messages of the failed fetches, in iteration order. -/
def failureMessagesFrom (fetch : Nat → List Char → Except FetchError Price) :
    Nat → List (List Char) → List (List Char)
  | _, [] => []
  | i, currency :: rest =>
    match fetch i currency with
    | .ok _ => failureMessagesFrom fetch (i + 1) rest
    | .error e =>
      formatFetchError currency e :: failureMessagesFrom fetch (i + 1) rest

/-- Characterization of the `GetPrices` accumulator loop: it appends the
ordered successes to the accumulated prices, adds the failure count to the
accumulated error count, and retains the last failure message (keeping the
incoming one when no failure occurs). -/
theorem getPricesLoop_eq (fetch : Nat → List Char → Except FetchError Price)
    (currencies : List (List Char)) (i : Nat) (prices : List PairPrice)
    (errorsCount : Nat) (lastError : List Char) :
    getPricesLoop fetch i currencies prices errorsCount lastError =
      (prices ++ successesFrom fetch i currencies,
       errorsCount + errorsFrom fetch i currencies,
       (failureMessagesFrom fetch i currencies).getLastD lastError) := by
  induction currencies generalizing i prices errorsCount lastError with
  | nil => simp [getPricesLoop, successesFrom, errorsFrom, failureMessagesFrom]
  | cons currency rest ih =>
    cases hfetch : fetch i currency with
    | ok price =>
      simp [getPricesLoop, successesFrom, errorsFrom, failureMessagesFrom,
        hfetch, ih]
    | error e =>
      simp only [getPricesLoop, successesFrom, errorsFrom,
        failureMessagesFrom, hfetch, ih, Prod.mk.injEq]
      refine ⟨trivial, by omega, ?_⟩
      cases h : failureMessagesFrom fetch (i + 1) rest <;>
        simp [List.getLastD, h]

/-- Corollary: `runBatch` in terms of the reference descriptions. -/
theorem runBatch_eq (fetch : Nat → List Char → Except FetchError Price)
    (currencies : List (List Char)) :
    runBatch fetch currencies =
      ⟨successesFrom fetch 0 currencies,
       errorsFrom fetch 0 currencies,
       currencies.length,
       (failureMessagesFrom fetch 0 currencies).getLastD []⟩ := by
  simp [runBatch, getPricesLoop_eq]

/-- A fetch fails exactly when it contributes no success entry: the counts
are complementary. -/
theorem successesFrom_length_add_errorsFrom
    (fetch : Nat → List Char → Except FetchError Price)
    (i : Nat) (currencies : List (List Char)) :
    (successesFrom fetch i currencies).length +
      errorsFrom fetch i currencies = currencies.length := by
  induction currencies generalizing i with
  | nil => simp [successesFrom, errorsFrom]
  | cons currency rest ih =>
    have h := ih (i + 1)
    cases hfetch : fetch i currency <;>
      simp [successesFrom, errorsFrom, hfetch] <;> omega

/-- No failure messages means no counted errors. -/
theorem errorsFrom_eq_zero_of_failureMessagesFrom_nil
    (fetch : Nat → List Char → Except FetchError Price)
    (i : Nat) (currencies : List (List Char))
    (h : failureMessagesFrom fetch i currencies = []) :
    errorsFrom fetch i currencies = 0 := by
  induction currencies generalizing i with
  | nil => simp [errorsFrom]
  | cons currency rest ih =>
    cases hfetch : fetch i currency with
    | ok price =>
      simp only [failureMessagesFrom, hfetch] at h
      simp [errorsFrom, hfetch, ih _ h]
    | error e => simp [failureMessagesFrom, hfetch] at h

/-! ## Reference description of pair resolution (spec §4.3)

`resolveSpecBy` transcribes the spec's words — "split on `,`, trim
surrounding whitespace from each token, discard empty tokens, and for each
remaining token extract the substring after the first `/`; tokens without a
`/` or with nothing after it are silently dropped" — parameterized by which
characters count as trimmable whitespace. -/

/-- Textbook split on `','`: always returns at least one (possibly empty)
chunk. -/
def splitOnComma : List Char → List (List Char)
  | [] => [[]]
  | c :: rest =>
    if c = ',' then [] :: splitOnComma rest
    else
      match splitOnComma rest with
      | [] => [[c]]
      | t :: ts => (c :: t) :: ts

/-- Trim leading and trailing characters satisfying `isWS`. -/
def trimBy (isWS : Char → Bool) (s : List Char) : List Char :=
  ((s.dropWhile isWS).reverse.dropWhile isWS).reverse

/-- The substring after the first `'/'` of a token, when the token has
one. -/
def afterFirstSlash : List Char → Option (List Char)
  | [] => none
  | c :: rest => if c = '/' then some rest else afterFirstSlash rest

/-- The currency a token contributes per the spec's words: the substring
after its first `'/'`, dropped when there is no `'/'` or nothing after
it. -/
def currencyOfToken (t : List Char) : Option (List Char) :=
  match afterFirstSlash t with
  | none => none
  | some c => if c = [] then none else some c

/-- Resolution as the spec describes it, trimming `isWS` characters. -/
def resolveSpecBy (isWS : Char → Bool) (pairsParam : List Char) :
    List (List Char) :=
  if pairsParam = [] then [str "USD", str "EUR", str "CHF"]
  else
    (splitOnComma pairsParam).filterMap fun tok =>
      let t := trimBy isWS tok
      if t = [] then none else currencyOfToken t

/-- Helper lemma: `splitOnComma` always yields at least one chunk. -/
theorem splitOnComma_ne_nil (p : List Char) : splitOnComma p ≠ [] := by
  cases p with
  | nil => simp [splitOnComma]
  | cons c rest =>
    simp only [splitOnComma]
    by_cases hc : c = ','
    · simp [hc]
    · simp only [if_neg hc]
      cases splitOnComma rest <;> simp

/-- Prepend an accumulator to the head chunk of a split. -/
def consHead (cur : List Char) : List (List Char) → List (List Char)
  | [] => [cur]
  | t :: ts => (cur ++ t) :: ts

/-- The accumulator loop `splitRaw` agrees with the textbook split up to a
trailing empty chunk, which any empty-dropping `filterMap` erases. -/
theorem splitRaw_filterMap {β : Type} (h : List Char → Option β)
    (hnil : h [] = none) (p : List Char) (cur : List Char) :
    (splitRaw p cur).filterMap h =
      (consHead cur (splitOnComma p)).filterMap h := by
  induction p generalizing cur with
  | nil =>
    by_cases hc : cur = [] <;>
      simp [splitRaw, splitOnComma, consHead, hc, hnil]
  | cons c rest ih =>
    by_cases hc : c = ','
    · have ihz := ih []
      rcases hsp : splitOnComma rest with _ | ⟨t, ts⟩
      · exact absurd hsp (splitOnComma_ne_nil rest)
      · rw [hsp] at ihz
        simp only [consHead, List.nil_append] at ihz
        simp [splitRaw, splitOnComma, consHead, hc, hsp,
          List.filterMap_cons, ihz]
    · rcases hsp : splitOnComma rest with _ | ⟨t, ts⟩
      · exact absurd hsp (splitOnComma_ne_nil rest)
      · have ihc := ih (cur ++ [c])
        rw [hsp] at ihc
        simp only [splitRaw, if_neg hc, ihc, splitOnComma, hsp, consHead]
        simp

/-- The code's `extractCurrency`-then-drop-empty step coincides with the
spec's after-first-slash extraction with its two drop rules. -/
theorem extractCurrency_eq_currencyOfToken (t : List Char) :
    (if extractCurrency t = [] then none else some (extractCurrency t)) =
      currencyOfToken t := by
  induction t with
  | nil => simp [extractCurrency, currencyOfToken, afterFirstSlash]
  | cons c rest ih =>
    by_cases hc : c = '/'
    · cases rest with
      | nil => simp [extractCurrency, currencyOfToken, afterFirstSlash, hc]
      | cons d ds =>
        simp [extractCurrency, currencyOfToken, afterFirstSlash, hc]
    · simpa [extractCurrency, currencyOfToken, afterFirstSlash, hc] using ih

/-- Refinement: `resolveCurrencies` from the code computes exactly the
spec's resolution procedure with "whitespace" read as the ASCII space
character. -/
theorem resolveCurrencies_eq_resolveSpec_space (pairsParam : List Char) :
    resolveCurrencies pairsParam =
      resolveSpecBy (fun c => c = ' ') pairsParam := by
  by_cases hp : pairsParam = []
  · simp [resolveCurrencies, resolveSpecBy, hp]
  · have htrim : ∀ s, trimSpaces s = trimBy (fun c => c = ' ') s :=
      fun s => rfl
    simp only [resolveCurrencies, resolveSpecBy, if_neg hp, splitPairs,
      List.filterMap_filterMap]
    rw [splitRaw_filterMap _ (by simp [trimSpaces]) pairsParam []]
    rcases hsp : splitOnComma pairsParam with _ | ⟨t, ts⟩
    · exact absurd hsp (splitOnComma_ne_nil pairsParam)
    · simp only [consHead, List.nil_append]
      apply List.filterMap_congr
      intro tok _
      rw [← htrim tok]
      by_cases ht : trimSpaces tok = []
      · simp [ht]
      · simp only [ht, if_neg ht, Option.bind_some]
        simpa [ht] using extractCurrency_eq_currencyOfToken (trimSpaces tok)

/-! ## Concrete oracles used by witnesses -/

/-- A fetch oracle on which every call fails with `noData`. -/
def alwaysFailFetch : Nat → List Char → Except FetchError Price :=
  fun _ _ => .error .noData

/-- A fetch oracle on which every call succeeds at price 42. -/
def alwaysOkFetch : Nat → List Char → Except FetchError Price :=
  fun _ _ => .ok 42

/-! ## Claims -/

/-- C1: For every resolved currency list and every assignment of
per-pair fetch outcomes, a fetch failure never aborts the batch: every
error kind becomes a counted failure for its pair only while the successes
of all other pairs are still collected in order (so
`errorsCount + len(prices) = N`), and the caller-visible classification is
HTTP 200 carrying exactly the successful entries when at least one pair
succeeded, and HTTP 503 when no pair succeeded but at least one was
attempted. -/
theorem batch_tolerates_per_pair_failures
    (fetch : Nat → List Char → Except FetchError Price)
    (currencies : List (List Char)) :
    (runBatch fetch currencies).prices = successesFrom fetch 0 currencies
    ∧ (runBatch fetch currencies).errorsCount = errorsFrom fetch 0 currencies
    ∧ (runBatch fetch currencies).errorsCount
        + (runBatch fetch currencies).prices.length = currencies.length
    ∧ (successesFrom fetch 0 currencies ≠ [] →
        ltpStatusCode (runBatch fetch currencies) = 200)
    ∧ (successesFrom fetch 0 currencies = [] → currencies ≠ [] →
        ltpStatusCode (runBatch fetch currencies) = 503) := by
  have hcount := successesFrom_length_add_errorsFrom fetch 0 currencies
  rw [runBatch_eq]
  refine ⟨rfl, rfl, by simpa using by omega, ?_, ?_⟩
  · intro hne
    have : (successesFrom fetch 0 currencies).length ≠ 0 := by
      simpa using hne
    simp only [ltpStatusCode]
    rw [if_neg]
    simp only [not_and]
    intro _
    exact this
  · intro hnil hcur
    have hlen : currencies.length ≠ 0 := by simpa using hcur
    have herr : errorsFrom fetch 0 currencies = currencies.length := by
      rw [hnil] at hcount
      simpa using hcount
    simp only [ltpStatusCode]
    rw [if_pos]
    constructor
    · omega
    · simp [hnil]

/-- Witness for C1: with one attempted pair that fails the status is 503,
and with one succeeding pair the status is 200. -/
theorem batch_tolerates_per_pair_failures_witness :
    ltpStatusCode (runBatch alwaysFailFetch [str "USD"]) = 503
    ∧ ltpStatusCode (runBatch alwaysOkFetch [str "USD"]) = 200 := by
  constructor
  · exact (batch_tolerates_per_pair_failures alwaysFailFetch
      [str "USD"]).2.2.2.2 (by decide) (by decide)
  · exact (batch_tolerates_per_pair_failures alwaysOkFetch
      [str "USD"]).2.2.2.1 (by decide)

/-- C2: The input `"INVALID"` (no `/`) resolves to the empty currency
list, so the batch runs with `totalAttempts = krakenCalls = 0`, no error
and no price, and the spec's derived classification of that batch is
`AllFailed` with `N = 0`. -/
theorem invalid_input_resolves_empty
    (fetch : Nat → List Char → Except FetchError Price) :
    resolveCurrencies (str "INVALID") = []
    ∧ (GetPrices fetch (str "INVALID")).krakenCalls = 0
    ∧ (GetPrices fetch (str "INVALID")).errorsCount = 0
    ∧ (GetPrices fetch (str "INVALID")).prices = []
    ∧ batchStatus (GetPrices fetch (str "INVALID")).errorsCount
        (GetPrices fetch (str "INVALID")).krakenCalls = .allFailed := by
  have hres : resolveCurrencies (str "INVALID") = [] := by decide
  refine ⟨hres, ?_, ?_, ?_, ?_⟩ <;>
    simp [GetPrices, hres, runBatch, getPricesLoop, batchStatus]

/-- C3: A cached quote is fresh iff `now - observedAt` is strictly
below the fixed 60-second window; a quote fetched and cached at time `T`
is, at `T + 30`, served back identically from the cache with no upstream
call, and at `T + 61` it is stale, so the upstream source is called
again. -/
theorem cache_freshness_window (now T : Int) (cached : CachedPrice)
    (p : Price) (k2 k3 : Except FetchError Price) (currency : List Char) :
    (isCacheFresh now cached = true ↔ now - cached.timestamp < 60)
    ∧ GetBTCPrice true (storeGet []) T (.ok p) currency =
        ⟨.ok p, true, some (cacheKeyOf currency, ⟨p, T⟩)⟩
    ∧ (GetBTCPrice true (storeGet [(cacheKeyOf currency, ⟨p, T⟩)])
          (T + 30) k2 currency).result = .ok p
    ∧ (GetBTCPrice true (storeGet [(cacheKeyOf currency, ⟨p, T⟩)])
          (T + 30) k2 currency).krakenCalled = false
    ∧ (GetBTCPrice true (storeGet [(cacheKeyOf currency, ⟨p, T⟩)])
          (T + 61) k3 currency).krakenCalled = true := by
  have hfresh : isCacheFresh (T + 30) ⟨p, T⟩ = true := by
    simp only [isCacheFresh, decide_eq_true_eq]
    omega
  have hstale : isCacheFresh (T + 61) ⟨p, T⟩ = false := by
    simp only [isCacheFresh, decide_eq_false_iff_not]
    omega
  refine ⟨by simp [isCacheFresh], ?_, ?_, ?_, ?_⟩
  · simp [GetBTCPrice, storeGet]
  · simp [GetBTCPrice, storeGet, List.lookup, hfresh]
  · simp [GetBTCPrice, storeGet, List.lookup, hfresh]
  · cases k3 <;> simp [GetBTCPrice, storeGet, List.lookup, hstale]

/-- C4: For every input pair string and every assignment of per-pair
fetch outcomes, the batch result satisfies
`errorCount + len(successes) == totalAttempts`, where `totalAttempts`
(`KrakenCalls` in the code) is the length of the resolved currency list. -/
theorem batch_count_invariant
    (fetch : Nat → List Char → Except FetchError Price)
    (pairsParam : List Char) :
    (GetPrices fetch pairsParam).errorsCount
        + (GetPrices fetch pairsParam).prices.length
      = (GetPrices fetch pairsParam).krakenCalls
    ∧ (GetPrices fetch pairsParam).krakenCalls
      = (resolveCurrencies pairsParam).length := by
  have hcount := successesFrom_length_add_errorsFrom fetch 0
    (resolveCurrencies pairsParam)
  rw [GetPrices, runBatch_eq]
  exact ⟨by simpa using by omega, rfl⟩

/-- C5: When the cache backend is uninitialized (`redisClient == nil`)
or unreachable (every read errors), a price lookup behaves exactly as the
bare upstream fetch: the upstream source is always consulted and its
outcome — success or error — is returned unchanged, so no error
attributable to the cache ever reaches the caller. -/
theorem cache_outage_is_transparent (cacheGet : List Char → CacheGet)
    (now : Int) (kraken : Except FetchError Price) (currency : List Char) :
    (GetBTCPrice false cacheGet now kraken currency).result = kraken
    ∧ (GetBTCPrice false cacheGet now kraken currency).krakenCalled = true
    ∧ (GetBTCPrice true (fun _ => .errOther) now kraken currency).result
        = kraken
    ∧ (GetBTCPrice true (fun _ => .errOther) now kraken
        currency).krakenCalled = true := by
  cases kraken <;> simp [GetBTCPrice]

/-- C6: An empty (or absent — the Go query accessor returns `""`)
pair-list input resolves to exactly `[USD, EUR, CHF]` in that order. -/
theorem default_currency_list :
    resolveCurrencies (str "") = [str "USD", str "EUR", str "CHF"] := by
  decide

/-- C7 counterexample: Read with "whitespace" meaning whitespace
characters, the claim fails: on input `"BTC/USD\t"` the code trims nothing
(it only strips `' '` bytes) and resolves to `["USD\t"]`, while the
claimed procedure trims the tab and resolves to `["USD"]`. -/
theorem resolver_whitespace_counterexample :
    resolveCurrencies (str "BTC/USD\t") ≠
      resolveSpecBy Char.isWhitespace (str "BTC/USD\t")
    ∧ resolveCurrencies (str "BTC/USD\t") = [str "USD\t"]
    ∧ resolveSpecBy Char.isWhitespace (str "BTC/USD\t") = [str "USD"] := by
  exact ⟨by decide, by decide, by decide⟩

/-- C7 amended: For every non-empty input string, resolution splits
on `','`, trims surrounding ASCII space characters (`' '` only — other
whitespace such as tabs is preserved) from each token, discards empty
tokens, and maps each remaining token to the substring after its first
`'/'`, silently dropping tokens without a `'/'` or with nothing after it,
preserving order and duplicates; in particular
`"BTC/USD, BTC/EUR"` resolves to `[USD, EUR]`. -/
theorem resolver_matches_spec_with_space_trim (pairsParam : List Char) :
    resolveCurrencies pairsParam
        = resolveSpecBy (fun c => c = ' ') pairsParam
    ∧ resolveCurrencies (str "BTC/USD, BTC/EUR") = [str "USD", str "EUR"] :=
  ⟨resolveCurrencies_eq_resolveSpec_space pairsParam, by decide⟩

/-- C8: For every resolved currency list and assignment of per-pair
outcomes, the successes appear in exactly the resolved currency order, the
retained error message is the message of the last failure in iteration
order (earlier ones are discarded), and when there is no failure the
message is empty, the error count is 0 and all `N` pairs appear as
successes. -/
theorem batch_order_and_last_error
    (fetch : Nat → List Char → Except FetchError Price)
    (currencies : List (List Char)) :
    (runBatch fetch currencies).prices = successesFrom fetch 0 currencies
    ∧ (runBatch fetch currencies).errorMessage
        = (failureMessagesFrom fetch 0 currencies).getLastD []
    ∧ (failureMessagesFrom fetch 0 currencies = [] →
        (runBatch fetch currencies).errorMessage = []
        ∧ (runBatch fetch currencies).errorsCount = 0
        ∧ (runBatch fetch currencies).prices.length = currencies.length) := by
  have hcount := successesFrom_length_add_errorsFrom fetch 0 currencies
  rw [runBatch_eq]
  refine ⟨rfl, rfl, fun hnil => ?_⟩
  have herr := errorsFrom_eq_zero_of_failureMessagesFrom_nil fetch 0
    currencies hnil
  refine ⟨by simp [hnil], herr, ?_⟩
  simpa [herr] using hcount

/-- Witness for C8: a concrete two-pair batch with no failure has an empty
error message, zero errors and two ordered successes. -/
theorem batch_order_and_last_error_witness :
    (runBatch alwaysOkFetch [str "USD", str "EUR"]).errorMessage = []
    ∧ (runBatch alwaysOkFetch [str "USD", str "EUR"]).errorsCount = 0
    ∧ (runBatch alwaysOkFetch [str "USD", str "EUR"]).prices.length
        = ([str "USD", str "EUR"] : List (List Char)).length :=
  (batch_order_and_last_error alwaysOkFetch [str "USD", str "EUR"]).2.2
    (by decide)

/-- C9: Classification of a decoded upstream document by the single
pair fetch: a non-empty error list is rejected upstream (carrying that
error list); an empty error list with an empty result map is `noData`; and
with a single result entry under the provider pair symbol whose nested
string array is non-empty, the fetched price is the parse of that array's
first element, an unparsable first element failing as a protocol error. -/
theorem kraken_response_classification (parse : List Char → Option Price)
    (resp : KrakenResponse) (sym c0 : List Char) (cs : List (List Char))
    (p : Price) :
    (resp.error ≠ [] →
      fetchFromKraken parse resp = .error (.upstreamRejected resp.error))
    ∧ (resp.error = [] → resp.result = [] →
      fetchFromKraken parse resp = .error .noData)
    ∧ (resp.error = [] → resp.result = [(sym, ⟨c0 :: cs⟩)] →
      (parse c0 = some p → fetchFromKraken parse resp = .ok p)
      ∧ (parse c0 = none →
        fetchFromKraken parse resp =
          .error (.protocolError (str "failed to parse price: " ++ c0)))) := by
  refine ⟨fun herr => ?_, fun herr hres => ?_, fun herr hres => ⟨?_, ?_⟩⟩
  · simp [fetchFromKraken, herr]
  · simp [fetchFromKraken, herr, hres, krakenResultScan]
  · intro hp
    simp [fetchFromKraken, herr, hres, krakenResultScan, hp]
  · intro hp
    simp [fetchFromKraken, herr, hres, krakenResultScan, hp]

/-- Witness for C9: all three classifications at concrete documents. -/
theorem kraken_response_classification_witness :
    fetchFromKraken (fun _ => some 50000) ⟨[str "EQuery:Unknown asset pair"], []⟩
      = .error (.upstreamRejected [str "EQuery:Unknown asset pair"])
    ∧ fetchFromKraken (fun _ => some 50000) ⟨[], []⟩ = .error .noData
    ∧ fetchFromKraken (fun _ => some 50000)
        ⟨[], [(str "XXBTZUSD", ⟨[str "50000.0", str "0.1"]⟩)]⟩ = .ok 50000
    ∧ fetchFromKraken (fun _ => none)
        ⟨[], [(str "XXBTZUSD", ⟨[str "bogus", str "0.1"]⟩)]⟩
      = .error (.protocolError (str "failed to parse price: " ++ str "bogus")) := by
  refine ⟨?_, ?_, ?_, ?_⟩
  · exact (kraken_response_classification (fun _ => some 50000)
      ⟨[str "EQuery:Unknown asset pair"], []⟩ [] [] [] 0).1 (by decide)
  · exact (kraken_response_classification (fun _ => some 50000)
      ⟨[], []⟩ [] [] [] 0).2.1 rfl rfl
  · exact ((kraken_response_classification (fun _ => some 50000)
      ⟨[], [(str "XXBTZUSD", ⟨[str "50000.0", str "0.1"]⟩)]⟩
      (str "XXBTZUSD") (str "50000.0") [str "0.1"] 50000).2.2 rfl rfl).1 rfl
  · exact ((kraken_response_classification (fun _ => none)
      ⟨[], [(str "XXBTZUSD", ⟨[str "bogus", str "0.1"]⟩)]⟩
      (str "XXBTZUSD") (str "bogus") [str "0.1"] 0).2.2 rfl rfl).2 rfl

/-- C10: The text before a token's first `'/'` is ignored entirely: a
token `base ++ "/" ++ rest` with no `'/'` in the base resolves to exactly
`rest` (further slashes included, so `"BTC/US/D"` gives `"US/D"`), and a
success entry is always labeled `"BTC/" ++ rest` regardless of the
requested base — a request for `"ETH/USD"` produces the entry labeled
`"BTC/USD"` carrying whatever price the (base-blind) fetch returned for
`"USD"`. -/
theorem requested_base_is_ignored
    (fetch : Nat → List Char → Except FetchError Price) (p : Price)
    (base tl : List Char) (hbase : '/' ∉ base) (htl : tl ≠ [])
    (hfetch : fetch 0 (str "USD") = .ok p) :
    extractCurrency (base ++ '/' :: tl) = tl
    ∧ extractCurrency (str "BTC/US/D") = str "US/D"
    ∧ (GetPrices fetch (str "ETH/USD")).prices = [⟨str "BTC/USD", p⟩] := by
  refine ⟨?_, by decide, ?_⟩
  · induction base with
    | nil => simp [extractCurrency, htl]
    | cons c bs ih =>
      have hc : c ≠ '/' := fun h => hbase (h ▸ List.mem_cons_self c bs)
      simp only [List.cons_append, extractCurrency]
      rw [if_neg (by simp [hc])]
      exact ih (fun h => hbase (List.mem_cons_of_mem c h))
  · have hres : resolveCurrencies (str "ETH/USD") = [str "USD"] := by decide
    rw [GetPrices, hres, runBatch_eq]
    simp [successesFrom, hfetch]
    decide

/-- Witness for C10 at base `"ETH"`, tail `"USD"` and the always-42
oracle. -/
theorem requested_base_is_ignored_witness :
    extractCurrency (str "ETH" ++ '/' :: str "USD") = str "USD"
    ∧ (GetPrices alwaysOkFetch (str "ETH/USD")).prices
        = [⟨str "BTC/USD", 42⟩] := by
  have h := requested_base_is_ignored alwaysOkFetch 42 (str "ETH")
    (str "USD") (by decide) (by decide) rfl
  exact ⟨h.1, h.2.2⟩

end BtcService
